import Mathlib

/-!
Verification of the core of the ndc-postgres connector: the configuration
model and validation gate (configuration/version1.rs), the schema deriver
(schema.rs) and the comparison-operator translator (operators.rs), shallowly
embedded in Lean. Rust BTreeMap/BTreeSet values are modelled as association
lists kept sorted by key through ordered insertion, which mirrors the
iteration order and last-write-wins collect semantics of the originals.
-/

/-- Model of Rust's BTreeMap with String keys: an association list that the
operations below keep sorted strictly by key. -/
abbrev BTMap (α : Type) : Type := List (String × α)

/-- Model of Rust's BTreeSet of Strings: a strictly sorted list. -/
abbrev BTSet : Type := List String

namespace BTMap

def empty {α : Type} : BTMap α := []

/-- Ordered insertion, replacing the value at an existing key, as BTreeMap
insert does. -/
def insert {α : Type} (k : String) (v : α) : BTMap α → BTMap α
  | [] => [(k, v)]
  | (k1, v1) :: rest =>
    if k < k1 then (k, v) :: (k1, v1) :: rest
    else if k = k1 then (k, v) :: rest
    else (k1, v1) :: insert k v rest

/-- Model of Extend/FromIterator for BTreeMap: sequential inserts, a later
duplicate key overwriting an earlier one. -/
def extend {α : Type} (m : BTMap α) (l : List (String × α)) : BTMap α :=
  l.foldl (fun acc p => insert p.1 p.2 acc) m

/-- Model of collecting an iterator into a fresh BTreeMap. -/
def fromList {α : Type} (l : List (String × α)) : BTMap α :=
  extend empty l

def lookup {α : Type} (k : String) : BTMap α → Option α
  | [] => none
  | (k1, v1) :: rest => if k = k1 then some v1 else lookup k rest

def keys {α : Type} (m : BTMap α) : List String := m.map Prod.fst

def values {α : Type} (m : BTMap α) : List α := m.map Prod.snd

/-- The canonical-order invariant of the BTreeMap model: keys strictly
increase along the list. -/
def SortedKeys {α : Type} (m : BTMap α) : Prop :=
  List.Pairwise (fun a b => a.1 < b.1) m

end BTMap

namespace BTSet

def insert (k : String) : BTSet → BTSet
  | [] => [k]
  | k1 :: rest =>
    if k < k1 then k :: k1 :: rest
    else if k = k1 then k1 :: rest
    else k1 :: insert k rest

def fromList (l : List String) : BTSet :=
  l.foldl (fun s k => insert k s) []

def Sorted (s : BTSet) : Prop := List.Pairwise (fun a b => a < b) s

end BTSet

namespace metadata

/-- Scalar type names (Rust: metadata::ScalarType, a newtype over String). -/
abbrev ScalarType : Type := String

inductive Nullable : Type where
  | NonNullable : Nullable
  | Nullable : Nullable
deriving DecidableEq

/-- Column metadata as used by schema.rs: name, scalar type and discovered
nullability. -/
structure ColumnInfo : Type where
  name : String
  type : ScalarType
  nullable : Nullable
deriving DecidableEq

/-- A named uniqueness constraint: the set of its column names (Rust:
UniquenessConstraint(pub BTreeSet of String)). -/
abbrev UniquenessConstraint : Type := List String

structure ForeignRelation : Type where
  foreign_table : String
  column_mapping : BTMap String
deriving DecidableEq

structure TableInfo : Type where
  columns : BTMap ColumnInfo
  uniqueness_constraints : BTMap UniquenessConstraint
  foreign_relations : BTMap ForeignRelation
deriving DecidableEq

abbrev TablesInfo : Type := BTMap TableInfo

structure NativeQueryInfo : Type where
  columns : BTMap ColumnInfo
  arguments : BTMap ColumnInfo
deriving DecidableEq

abbrev NativeQueries : Type := BTMap NativeQueryInfo

structure AggregateFunction : Type where
  return_type : ScalarType
deriving DecidableEq

/-- Discovered aggregate functions, keyed by scalar type, then by function
name. -/
abbrev AggregateFunctions : Type := BTMap (BTMap AggregateFunction)

/-- Metadata as constructed by configure in version1.rs: tables, native
queries and aggregate functions. -/
structure Metadata : Type where
  tables : TablesInfo
  native_queries : NativeQueries
  aggregate_functions : AggregateFunctions
deriving DecidableEq

end metadata

namespace models

/-- Protocol types (ndc models::Type): a named type or a nullable wrapper. -/
inductive Typ : Type where
  | Named : String → Typ
  | Nullable : Typ → Typ
deriving DecidableEq

structure AggregateFunctionDefinition : Type where
  result_type : Typ
deriving DecidableEq

structure ComparisonOperatorDefinition : Type where
  argument_type : Typ
deriving DecidableEq

structure ScalarType : Type where
  aggregate_functions : BTMap AggregateFunctionDefinition
  comparison_operators : BTMap ComparisonOperatorDefinition
  update_operators : BTMap Unit
deriving DecidableEq

structure UniquenessConstraint : Type where
  unique_columns : List String
deriving DecidableEq

structure ForeignKeyConstraint : Type where
  foreign_collection : String
  column_mapping : BTMap String
deriving DecidableEq

structure ArgumentInfo : Type where
  description : Option String
  argument_type : Typ
deriving DecidableEq

structure CollectionInfo : Type where
  name : String
  description : Option String
  arguments : BTMap ArgumentInfo
  collection_type : String
  insertable_columns : Option (List String)
  updatable_columns : Option (List String)
  deletable : Bool
  uniqueness_constraints : BTMap UniquenessConstraint
  foreign_keys : BTMap ForeignKeyConstraint
deriving DecidableEq

structure ObjectField : Type where
  description : Option String
  type : Typ
deriving DecidableEq

structure ObjectType : Type where
  description : Option String
  fields : BTMap ObjectField
deriving DecidableEq

/-- The schema response; procedures and functions are always empty lists in
this connector, so their element types are left abstract as Unit. -/
structure SchemaResponse : Type where
  collections : List CollectionInfo
  procedures : List Unit
  functions : List Unit
  object_types : BTMap ObjectType
  scalar_types : BTMap ScalarType
deriving DecidableEq

/-- Binary comparison operator of a query request (ndc models): the built-in
equality, or a named operator. -/
inductive BinaryComparisonOperator : Type where
  | Equal : BinaryComparisonOperator
  | Other : String → BinaryComparisonOperator
deriving DecidableEq

end models

namespace version1

/-- Type that accepts both a single value and a list of values
(configuration/version1.rs, SingleOrList). -/
inductive SingleOrList (T : Type) : Type where
  | Single : T → SingleOrList T
  | List : List T → SingleOrList T
deriving DecidableEq

def SingleOrList.is_empty {T : Type} : SingleOrList T → Bool
  | SingleOrList.Single _ => false
  | SingleOrList.List l => l.isEmpty

def SingleOrList.first {T : Type} : SingleOrList T → Option T
  | SingleOrList.Single s => some s
  | SingleOrList.List l => l.head?

/-- A connection value that may come directly from configuration or from an
externally resolved secret (Rust: ResolvedSecret(pub String)). -/
structure ResolvedSecret : Type where
  value : String
deriving DecidableEq

/-- The intermediate type for the two accepted input shapes of a
ResolvedSecret: a bare string, or a value-wrapper object. -/
inductive ResolvedSecretIntermediate : Type where
  | Unwrapped : String → ResolvedSecretIntermediate
  | Wrapped : String → ResolvedSecretIntermediate
deriving DecidableEq

/-- The From conversion applied by deserialization (serde from-attribute on
ResolvedSecret): both shapes collapse to the inner string. -/
def ResolvedSecret.fromIntermediate : ResolvedSecretIntermediate → ResolvedSecret
  | ResolvedSecretIntermediate.Unwrapped inner => { value := inner }
  | ResolvedSecretIntermediate.Wrapped inner => { value := inner }

structure ConnectionUri : Type where
  secret : ResolvedSecret
deriving DecidableEq

structure ConnectionUris : Type where
  uris : SingleOrList ConnectionUri
deriving DecidableEq

def single_connection_uri (connection_uri : String) : ConnectionUris :=
  { uris := SingleOrList.Single { secret := { value := connection_uri } } }

/-- Settings for the PostgreSQL connection pool, all durations in seconds. -/
structure PoolSettings : Type where
  max_connections : Nat
  pool_timeout : Nat
  idle_timeout : Option Nat
  connection_lifetime : Option Nat
deriving DecidableEq

def PoolSettings.default : PoolSettings :=
  { max_connections := 50
    pool_timeout := 30
    idle_timeout := some 180
    connection_lifetime := some 600 }

def PoolSettings.is_default (ps : PoolSettings) : Bool :=
  decide (ps = PoolSettings.default)

def default_excluded_schemas : List String :=
  ["information_schema", "pg_catalog", "tiger", "crdb_internal",
   "columnar", "columnar_internal"]

/-- Initial configuration (configuration/version1.rs, RawConfiguration). -/
structure RawConfiguration : Type where
  version : Nat
  connection_uris : ConnectionUris
  pool_settings : PoolSettings
  metadata : metadata.Metadata
  excluded_schemas : List String
deriving DecidableEq

/-- User configuration, elaborated from a RawConfiguration. -/
structure Configuration : Type where
  config : RawConfiguration
deriving DecidableEq

/-- Path components of a validation error (ndc-sdk connector::KeyOrIndex). -/
inductive KeyOrIndex : Type where
  | Key : String → KeyOrIndex
  | Index : Nat → KeyOrIndex
deriving DecidableEq

/-- One reported configuration defect (ndc-sdk connector::InvalidRange). -/
structure InvalidRange : Type where
  path : List KeyOrIndex
  message : String
deriving DecidableEq

inductive ValidateError : Type where
  | ValidateError : List InvalidRange → ValidateError
deriving DecidableEq

/-- Validate the user configuration (configuration/version1.rs,
validate_raw_configuration; async is irrelevant here, the body is pure). -/
def validate_raw_configuration (config : RawConfiguration) :
    Except ValidateError Configuration :=
  if config.version ≠ 1 then
    Except.error (ValidateError.ValidateError
      [{ path := [KeyOrIndex.Key "version"]
         message := "invalid configuration version, expected 1, got "
           ++ toString config.version }])
  else if (config.connection_uris.uris).is_empty then
    Except.error (ValidateError.ValidateError
      [{ path := [KeyOrIndex.Key "connection_uris"]
         message := "At least one database url must be specified" }])
  else
    Except.ok { config := config }

/-- Select the first available connection URI. The Rust body calls expect on
first(), which panics when no URI is present; the panic is modelled by the
none branch of the returned Option. -/
def select_first_connection_uri (urls : ConnectionUris) : Option String :=
  (urls.uris.first).map (fun u => u.secret.value)

/-- Select a single connection URI to use: currently simply the first. -/
def select_connection_uri (urls : ConnectionUris) : Option String :=
  select_first_connection_uri urls

inductive UpdateConfigurationError : Type where
  | Other : String → UpdateConfigurationError
deriving DecidableEq

/-- Construct the deployment configuration by introspecting the database
(configuration/version1.rs, configure). The network effects are factored out:
row_result stands for the combined outcome of connecting, running the
introspection query and decoding its two JSON columns into tables and
aggregate functions; the outer Option's none branch models the panic inside
select_first_connection_uri on an empty URI list. -/
def configure (args : RawConfiguration)
    (row_result : Except UpdateConfigurationError
      (metadata.TablesInfo × metadata.AggregateFunctions)) :
    Option (Except UpdateConfigurationError RawConfiguration) :=
  match select_first_connection_uri args.connection_uris with
  | none => none
  | some _url =>
    some (do
      let (tables, aggregate_functions) ← row_result
      Except.ok
        { version := 1
          connection_uris := args.connection_uris
          pool_settings := args.pool_settings
          metadata :=
            { tables := tables
              native_queries := args.metadata.native_queries
              aggregate_functions := aggregate_functions }
          excluded_schemas := args.excluded_schemas })

/-- Models the serde attribute on RawConfiguration.pool_settings
(skip_serializing_if is_default): the serialized document carries the field
iff the value is not the default. -/
def serialized_pool_settings (config : RawConfiguration) : Option PoolSettings :=
  if config.pool_settings.is_default then none else some config.pool_settings

end version1

namespace sql.ast

/-- A SQL function or operator together with its rendering form; is_infx
models the Rust field named is_ infix (true: rendered a OP b, false: rendered
FN(a, b)). -/
structure Function : Type where
  function_name : String
  is_infx : Bool
deriving DecidableEq

/-- Modelled from the spec: the SQL equality operator returned by the Equal
branch of the translator; its constructor (sql::ast::equals in the
query-engine sql crate) is not under src/. -/
def equals : Function :=
  { function_name := "=", is_infx := true }

end sql.ast

namespace translation

/-- A catalog entry for one comparison operator on one left scalar type: the
SQL name, its fixity and the required right-hand argument type; the shape is
fixed by the uses op.operator_name, op.is_ infix and op.argument_type in
operators.rs. -/
structure ComparisonOperator : Type where
  operator_name : String
  is_infx : Bool
  argument_type : metadata.ScalarType
deriving DecidableEq

/-- Translation errors surfaced by operator lookup; the variant names the
scalar type and the operator that failed to resolve. -/
inductive Error : Type where
  | OperatorNotFound : metadata.ScalarType → String → Error
deriving DecidableEq

/-- Modelled from the spec: the environment's scalar-type Catalog, a static
per-dialect table from left scalar type to the comparison operators
applicable to it; Env and its data (translation helpers crate) are not under
src/. -/
structure Env : Type where
  catalog : metadata.ScalarType → BTMap ComparisonOperator

/-- Modelled from the spec: looking an operator name up in the left scalar
type's Catalog entry; an absent name is a TranslationError naming both the
scalar type and the operator (lookup_comparison is not under src/). -/
def Env.lookup_comparison (env : Env) (left_type : metadata.ScalarType)
    (name : String) : Except Error ComparisonOperator :=
  match BTMap.lookup name (env.catalog left_type) with
  | some op => Except.ok op
  | none => Except.error (Error.OperatorNotFound left_type name)

/-- Maps a binary comparison operator to its PostgreSQL name and argument
type (operators.rs, translate_comparison). -/
def translate_comparison (env : Env) (left_type : metadata.ScalarType)
    (operator : models.BinaryComparisonOperator) :
    Except Error (sql.ast.Function × metadata.ScalarType) :=
  match operator with
  | models.BinaryComparisonOperator.Equal =>
    Except.ok (sql.ast.equals, left_type)
  | models.BinaryComparisonOperator.Other name => do
    let op ← env.lookup_comparison left_type name
    Except.ok
      ({ function_name := op.operator_name, is_infx := op.is_infx },
       op.argument_type)

end translation

namespace configuration

/-- The configuration shape schema.rs consumes, reconstructed from its field
accesses (the configuration module re-exported to schema.rs is not under
src/): discovered metadata plus a top-level aggregate-functions table; the
fields schema.rs never touches are omitted. -/
structure RawConfiguration : Type where
  aggregate_functions : metadata.AggregateFunctions
  metadata : metadata.Metadata
deriving DecidableEq

structure Configuration : Type where
  config : RawConfiguration
deriving DecidableEq

end configuration

namespace Schema

/-- Modelled from the spec: the static scalar-type Catalog consulted by the
schema deriver; schema.rs calls scalar_type.comparison_operators() and
operator.rhs_argument_type(scalar_type) whose definitions (query-engine
metadata crate) are not under src/. comparison_operators lists the operator
names applicable to a left scalar type; rhs_argument_type gives the required
right-hand scalar type of an operator, resolved against the left type. -/
structure Catalog : Type where
  comparison_operators : metadata.ScalarType → List String
  rhs_argument_type : String → metadata.ScalarType → metadata.ScalarType

/-- Scalar types of all table columns (schema.rs, occurring_scalar_types). -/
def tables_column_types (config : configuration.RawConfiguration) :
    List metadata.ScalarType :=
  (BTMap.values config.metadata.tables).flatMap
    (fun v => (BTMap.values v.columns).map (fun c => c.type))

/-- Scalar types of all native-query result columns. -/
def native_queries_column_types (config : configuration.RawConfiguration) :
    List metadata.ScalarType :=
  (BTMap.values config.metadata.native_queries).flatMap
    (fun v => (BTMap.values v.columns).map (fun c => c.type))

/-- Scalar types of all native-query arguments. -/
def native_queries_arguments_types (config : configuration.RawConfiguration) :
    List metadata.ScalarType :=
  (BTMap.values config.metadata.native_queries).flatMap
    (fun v => (BTMap.values v.arguments).map (fun c => c.type))

/-- Scalar types with a declared aggregate-function entry. -/
def aggregate_types (config : configuration.RawConfiguration) :
    List metadata.ScalarType :=
  BTMap.keys config.aggregate_functions

/-- Collect all the scalar types that can occur in the metadata (schema.rs,
occurring_scalar_types): the four sources chained and collected into a
BTreeSet. -/
def occurring_scalar_types (config : configuration.RawConfiguration) : BTSet :=
  BTSet.fromList
    (tables_column_types config ++ native_queries_column_types config
      ++ native_queries_arguments_types config ++ aggregate_types config)

/-- A column's protocol type (schema.rs, column_to_type): the named scalar
type, wrapped as nullable iff the column's nullability is nullable. -/
def column_to_type (column : metadata.ColumnInfo) : models.Typ :=
  match column.nullable with
  | metadata.Nullable.NonNullable => models.Typ.Named column.type
  | metadata.Nullable.Nullable =>
    models.Typ.Nullable (models.Typ.Named column.type)

/-- The scalar-type entry emitted per occurring scalar type (the body of the
map in get_schema): the aggregate map of the type (empty when it has none)
and the comparison map resolved against this left scalar type. -/
def scalarTypeEntry (cat : Catalog)
    (aggregate_functions : metadata.AggregateFunctions)
    (scalar_type : metadata.ScalarType) : models.ScalarType :=
  { aggregate_functions :=
      BTMap.fromList
        (((BTMap.lookup scalar_type aggregate_functions).getD BTMap.empty).map
          (fun p =>
            (p.1, { result_type := models.Typ.Named p.2.return_type })))
    comparison_operators :=
      BTMap.fromList
        ((cat.comparison_operators scalar_type).map
          (fun operator =>
            (operator,
             { argument_type :=
                 models.Typ.Named (cat.rhs_argument_type operator scalar_type) })))
    update_operators := BTMap.empty }

/-- The collection entry emitted for one table (the body of the tables map in
get_schema). -/
def table_collection (p : String × metadata.TableInfo) : models.CollectionInfo :=
  { name := p.1
    description := none
    arguments := BTMap.empty
    collection_type := p.1
    insertable_columns := none
    updatable_columns := none
    deletable := false
    uniqueness_constraints :=
      BTMap.fromList
        (p.2.uniqueness_constraints.map
          (fun c => (c.1, { unique_columns := c.2 })))
    foreign_keys :=
      BTMap.fromList
        (p.2.foreign_relations.map
          (fun c =>
            (c.1,
             { foreign_collection := c.2.foreign_table
               column_mapping := c.2.column_mapping }))) }

/-- The collection entry emitted for one native query. -/
def native_query_collection (p : String × metadata.NativeQueryInfo) :
    models.CollectionInfo :=
  { name := p.1
    description := none
    arguments :=
      BTMap.fromList
        (p.2.arguments.map
          (fun a =>
            (a.1,
             { description := none, argument_type := column_to_type a.2 })))
    collection_type := p.1
    insertable_columns := none
    updatable_columns := none
    deletable := false
    uniqueness_constraints := BTMap.empty
    foreign_keys := BTMap.empty }

/-- The object type emitted for one table: one field per column, keyed by the
column's own name field. -/
def table_object_type (table : metadata.TableInfo) : models.ObjectType :=
  { description := none
    fields :=
      BTMap.fromList
        ((BTMap.values table.columns).map
          (fun column =>
            (column.name,
             { description := none, type := column_to_type column }))) }

/-- The object type emitted for one native query. -/
def native_query_object_type (info : metadata.NativeQueryInfo) :
    models.ObjectType :=
  { description := none
    fields :=
      BTMap.fromList
        ((BTMap.values info.columns).map
          (fun column =>
            (column.name,
             { description := none, type := column_to_type column }))) }

/-- Get the connector's schema (schema.rs, get_schema; async is irrelevant,
the body is pure and the error case is never produced). The Catalog parameter
carries the two scalar-type methods whose definitions are outside src/. -/
def get_schema (cat : Catalog) : configuration.Configuration → models.SchemaResponse
  | { config := config } =>
    { collections :=
        config.metadata.tables.map table_collection
          ++ config.metadata.native_queries.map native_query_collection
      procedures := []
      functions := []
      object_types :=
        BTMap.extend
          (BTMap.fromList
            (config.metadata.tables.map
              (fun p => (p.1, table_object_type p.2))))
          (config.metadata.native_queries.map
            (fun p => (p.1, native_query_object_type p.2)))
      scalar_types :=
        BTMap.fromList
          ((occurring_scalar_types config).map
            (fun scalar_type =>
              (scalar_type,
               scalarTypeEntry cat config.aggregate_functions scalar_type))) }

end Schema

theorem BTMap.mem_insert_elim {α : Type} {x : String × α} {k : String} {v : α}
    {m : BTMap α} (h : x ∈ BTMap.insert k v m) : x = (k, v) ∨ x ∈ m := by
  induction m with
  | nil => simpa [BTMap.insert] using h
  | cons p rest ih =>
    obtain ⟨k1, v1⟩ := p
    simp only [BTMap.insert] at h
    by_cases h1 : k < k1
    · rw [if_pos h1] at h
      exact List.mem_cons.mp h
    · rw [if_neg h1] at h
      by_cases h2 : k = k1
      · rw [if_pos h2] at h
        rcases List.mem_cons.mp h with h3 | h3
        · exact Or.inl h3
        · exact Or.inr (List.mem_cons_of_mem _ h3)
      · rw [if_neg h2] at h
        rcases List.mem_cons.mp h with h3 | h3
        · exact Or.inr (h3 ▸ List.mem_cons_self _ _)
        · rcases ih h3 with h4 | h4
          · exact Or.inl h4
          · exact Or.inr (List.mem_cons_of_mem _ h4)

theorem BTMap.sortedKeys_insert {α : Type} {m : BTMap α} (k : String) (v : α)
    (h : BTMap.SortedKeys m) : BTMap.SortedKeys (BTMap.insert k v m) := by
  induction m with
  | nil => simp [BTMap.insert, BTMap.SortedKeys]
  | cons p rest ih =>
    obtain ⟨k1, v1⟩ := p
    simp only [BTMap.SortedKeys, List.pairwise_cons] at h
    obtain ⟨hall, hrest⟩ := h
    simp only [BTMap.insert]
    by_cases h1 : k < k1
    · rw [if_pos h1]
      simp only [BTMap.SortedKeys, List.pairwise_cons]
      refine ⟨?_, hall, hrest⟩
      intro x hx
      rcases List.mem_cons.mp hx with h2 | h2
      · rw [h2]; exact h1
      · exact lt_trans h1 (hall x h2)
    · rw [if_neg h1]
      by_cases h2 : k = k1
      · rw [if_pos h2]
        simp only [BTMap.SortedKeys, List.pairwise_cons]
        exact ⟨fun x hx => h2 ▸ hall x hx, hrest⟩
      · rw [if_neg h2]
        simp only [BTMap.SortedKeys, List.pairwise_cons]
        refine ⟨?_, ih hrest⟩
        intro x hx
        rcases BTMap.mem_insert_elim hx with h3 | h3
        · rw [h3]
          exact lt_of_le_of_ne (not_lt.mp h1) (Ne.symm h2)
        · exact hall x h3

theorem BTMap.sortedKeys_extend {α : Type} (l : List (String × α)) :
    ∀ {m : BTMap α}, BTMap.SortedKeys m → BTMap.SortedKeys (BTMap.extend m l) := by
  induction l with
  | nil => intro m h; simpa [BTMap.extend] using h
  | cons p rest ih =>
    intro m h
    have he : BTMap.extend m (p :: rest) =
        BTMap.extend (BTMap.insert p.1 p.2 m) rest := rfl
    rw [he]
    exact ih (BTMap.sortedKeys_insert _ _ h)

theorem BTMap.sortedKeys_fromList {α : Type} (l : List (String × α)) :
    BTMap.SortedKeys (BTMap.fromList l) :=
  BTMap.sortedKeys_extend l List.Pairwise.nil

theorem BTMap.mem_extend_elim {α : Type} {x : String × α} (l : List (String × α)) :
    ∀ {m : BTMap α}, x ∈ BTMap.extend m l → x ∈ m ∨ x ∈ l := by
  induction l with
  | nil => intro m h; exact Or.inl (by simpa [BTMap.extend] using h)
  | cons p rest ih =>
    intro m h
    have he : BTMap.extend m (p :: rest) =
        BTMap.extend (BTMap.insert p.1 p.2 m) rest := rfl
    rw [he] at h
    rcases ih h with h1 | h1
    · rcases BTMap.mem_insert_elim h1 with h2 | h2
      · refine Or.inr ?_
        rw [h2, Prod.mk.eta]
        exact List.mem_cons_self _ _
      · exact Or.inl h2
    · exact Or.inr (List.mem_cons_of_mem _ h1)

theorem BTMap.mem_fromList_elim {α : Type} {x : String × α}
    (l : List (String × α)) (h : x ∈ BTMap.fromList l) : x ∈ l := by
  rcases BTMap.mem_extend_elim l h with h1 | h1
  · cases h1
  · exact h1

theorem BTMap.insert_append_of_lt {α : Type} (k : String) (v : α) :
    ∀ (m : BTMap α), (∀ x ∈ m, x.1 < k) → BTMap.insert k v m = m ++ [(k, v)] := by
  intro m
  induction m with
  | nil => intro _; rfl
  | cons p rest ih =>
    intro h
    obtain ⟨k1, v1⟩ := p
    have hk1 : k1 < k := h (k1, v1) (List.mem_cons_self _ _)
    simp only [BTMap.insert, if_neg (lt_asymm hk1), if_neg (ne_of_gt hk1)]
    rw [ih (fun x hx => h x (List.mem_cons_of_mem _ hx))]
    rfl

theorem BTMap.extend_eq_append_of_sorted {α : Type} (l : List (String × α)) :
    ∀ (m : BTMap α), BTMap.SortedKeys (m ++ l) → BTMap.extend m l = m ++ l := by
  induction l with
  | nil => intro m _; simp [BTMap.extend]
  | cons p rest ih =>
    intro m h
    have he : BTMap.extend m (p :: rest) =
        BTMap.extend (BTMap.insert p.1 p.2 m) rest := rfl
    have hlt : ∀ x ∈ m, x.1 < p.1 := by
      intro x hx
      simp only [BTMap.SortedKeys, List.pairwise_append] at h
      exact h.2.2 x hx p (List.mem_cons_self _ _)
    have hins : BTMap.insert p.1 p.2 m = m ++ [p] := by
      rw [BTMap.insert_append_of_lt p.1 p.2 m hlt, Prod.mk.eta]
    have hsorted : BTMap.SortedKeys ((m ++ [p]) ++ rest) := by
      simpa [List.append_assoc] using h
    rw [he, hins, ih (m ++ [p]) hsorted]
    simp

theorem BTMap.fromList_eq_of_sorted {α : Type} {l : List (String × α)}
    (h : BTMap.SortedKeys l) : BTMap.fromList l = l :=
  BTMap.extend_eq_append_of_sorted l [] h

theorem BTMap.lookup_map_of_sorted {α : Type} (f : String → α) :
    ∀ {s : List String}, List.Pairwise (fun a b => a < b) s →
      ∀ {t : String}, t ∈ s →
        BTMap.lookup t (s.map (fun k => (k, f k))) = some (f t) := by
  intro s
  induction s with
  | nil => intro _ t ht; cases ht
  | cons a rest ih =>
    intro hs t ht
    simp only [List.pairwise_cons] at hs
    by_cases h : t = a
    · subst h
      simp [BTMap.lookup]
    · have ht2 : t ∈ rest := by
        rcases List.mem_cons.mp ht with h1 | h1
        · exact absurd h1 h
        · exact h1
      simp only [List.map_cons, BTMap.lookup, if_neg h]
      exact ih hs.2 ht2

theorem BTSet.mem_insert {x k : String} :
    ∀ {s : BTSet}, (x ∈ BTSet.insert k s ↔ x = k ∨ x ∈ s) := by
  intro s
  induction s with
  | nil => simp [BTSet.insert]
  | cons k1 rest ih =>
    simp only [BTSet.insert]
    by_cases h1 : k < k1
    · rw [if_pos h1]
      simp [List.mem_cons]
    · rw [if_neg h1]
      by_cases h2 : k = k1
      · rw [if_pos h2]
        subst h2
        simp [List.mem_cons]
      · rw [if_neg h2]
        simp only [List.mem_cons, ih]
        tauto

theorem BTSet.mem_fromList {x : String} (l : List String) :
    x ∈ BTSet.fromList l ↔ x ∈ l := by
  suffices h : ∀ acc : BTSet,
      (x ∈ l.foldl (fun s k => BTSet.insert k s) acc ↔ x ∈ acc ∨ x ∈ l) by
    simpa [BTSet.fromList] using h []
  induction l with
  | nil => intro acc; simp
  | cons a t ih =>
    intro acc
    rw [List.foldl_cons, ih (BTSet.insert a acc)]
    rw [BTSet.mem_insert]
    simp [List.mem_cons]
    tauto

theorem BTSet.sorted_insert {k : String} :
    ∀ {s : BTSet}, BTSet.Sorted s → BTSet.Sorted (BTSet.insert k s) := by
  intro s
  induction s with
  | nil => intro _; simp [BTSet.insert, BTSet.Sorted]
  | cons k1 rest ih =>
    intro h
    simp only [BTSet.Sorted, List.pairwise_cons] at h
    obtain ⟨hall, hrest⟩ := h
    simp only [BTSet.insert]
    by_cases h1 : k < k1
    · rw [if_pos h1]
      simp only [BTSet.Sorted, List.pairwise_cons]
      refine ⟨?_, hall, hrest⟩
      intro x hx
      rcases List.mem_cons.mp hx with h2 | h2
      · rw [h2]; exact h1
      · exact lt_trans h1 (hall x h2)
    · rw [if_neg h1]
      by_cases h2 : k = k1
      · rw [if_pos h2]
        simp only [BTSet.Sorted, List.pairwise_cons]
        exact ⟨hall, hrest⟩
      · rw [if_neg h2]
        simp only [BTSet.Sorted, List.pairwise_cons]
        refine ⟨?_, ih hrest⟩
        intro x hx
        rcases BTSet.mem_insert.mp hx with h3 | h3
        · rw [h3]
          exact lt_of_le_of_ne (not_lt.mp h1) (Ne.symm h2)
        · exact hall x h3

theorem BTSet.sorted_fromList (l : List String) :
    BTSet.Sorted (BTSet.fromList l) := by
  suffices h : ∀ acc : BTSet, BTSet.Sorted acc →
      BTSet.Sorted (l.foldl (fun s k => BTSet.insert k s) acc) from
    h [] List.Pairwise.nil
  induction l with
  | nil => intro acc hacc; simpa using hacc
  | cons a t ih =>
    intro acc hacc
    rw [List.foldl_cons]
    exact ih (BTSet.insert a acc) (BTSet.sorted_insert hacc)

/-- A configuration carrying both validation defects at once: version 2 and
an empty connection-endpoint list. -/
def bothDefectsConfig : version1.RawConfiguration :=
  { version := 2
    connection_uris := { uris := version1.SingleOrList.List [] }
    pool_settings := version1.PoolSettings.default
    metadata := { tables := [], native_queries := [], aggregate_functions := [] }
    excluded_schemas := version1.default_excluded_schemas }

/-- C1 counterexample: on a configuration with both defects (version 2 and an
empty endpoint list), validate_raw_configuration returns the version defect
alone — the error list is a singleton whose only path is "version", so no
entry with path "connection_uris" appears and the violations do not
accumulate. -/
theorem validate_truncates_to_first_defect :
    version1.validate_raw_configuration bothDefectsConfig =
      Except.error (version1.ValidateError.ValidateError
        [{ path := [version1.KeyOrIndex.Key "version"]
           message := "invalid configuration version, expected 1, got 2" }]) := by
  rfl

/-- C1 (amended): the checks of validate_raw_configuration run sequentially
with early return — a version different from 1 is reported alone, naming
"version", even when the endpoint list is also empty; the "connection_uris"
defect is reported (alone) only when the version check passes; and a
configuration passing both checks validates. -/
theorem validate_reports_first_defect_only (config : version1.RawConfiguration) :
    (config.version ≠ 1 →
      version1.validate_raw_configuration config =
        Except.error (version1.ValidateError.ValidateError
          [{ path := [version1.KeyOrIndex.Key "version"]
             message := "invalid configuration version, expected 1, got "
               ++ toString config.version }])) ∧
    (config.version = 1 → config.connection_uris.uris.is_empty = true →
      version1.validate_raw_configuration config =
        Except.error (version1.ValidateError.ValidateError
          [{ path := [version1.KeyOrIndex.Key "connection_uris"]
             message := "At least one database url must be specified" }])) ∧
    (config.version = 1 → config.connection_uris.uris.is_empty = false →
      version1.validate_raw_configuration config =
        Except.ok { config := config }) := by
  refine ⟨fun h => ?_, fun h1 h2 => ?_, fun h1 h2 => ?_⟩ <;>
    simp [version1.validate_raw_configuration, *]

/-- C2: for every catalog environment and every left scalar type, translating
the Equal operator succeeds without consulting the catalog — the result is
the same for every environment — returning the SQL equality operator together
with a required right-hand-side type equal to the left type itself. -/
theorem translate_comparison_equal (env : translation.Env)
    (left_type : metadata.ScalarType) :
    translation.translate_comparison env left_type
        models.BinaryComparisonOperator.Equal =
      Except.ok (sql.ast.equals, left_type) := by
  rfl

/-- C3: for every scalar type and every named operator absent from that
type's catalog entry, translate_comparison returns the TranslationError
naming both the scalar type and the operator name; no SQL operator is
defaulted and no type is coerced. -/
theorem translate_comparison_unknown_operator (env : translation.Env)
    (left_type : metadata.ScalarType) (name : String)
    (h : BTMap.lookup name (env.catalog left_type) = none) :
    translation.translate_comparison env left_type
        (models.BinaryComparisonOperator.Other name) =
      Except.error (translation.Error.OperatorNotFound left_type name) := by
  simp [translation.translate_comparison, translation.Env.lookup_comparison,
    h, Bind.bind, Except.bind]

/-- C3 witness: in an environment whose catalog is empty, translating the
named operator "_like" at scalar type "int4" yields the error naming both. -/
theorem translate_comparison_unknown_operator_witness :
    translation.translate_comparison { catalog := fun _ => [] } "int4"
        (models.BinaryComparisonOperator.Other "_like") =
      Except.error (translation.Error.OperatorNotFound "int4" "_like") :=
  translate_comparison_unknown_operator { catalog := fun _ => [] } "int4"
    "_like" rfl

/-- C4: whenever configure succeeds, the result keeps the input's connection
endpoints, pool settings, native queries and excluded schemas unchanged, its
version is stamped to 1, and only the tables and aggregate functions are
replaced by the decoded introspection result. -/
theorem configure_frame (args : version1.RawConfiguration)
    (row_result : Except version1.UpdateConfigurationError
      (metadata.TablesInfo × metadata.AggregateFunctions))
    (out : version1.RawConfiguration)
    (h : version1.configure args row_result = some (Except.ok out)) :
    out.connection_uris = args.connection_uris ∧
    out.pool_settings = args.pool_settings ∧
    out.metadata.native_queries = args.metadata.native_queries ∧
    out.excluded_schemas = args.excluded_schemas ∧
    out.version = 1 ∧
    ∃ tables aggregate_functions,
      row_result = Except.ok (tables, aggregate_functions) ∧
      out.metadata.tables = tables ∧
      out.metadata.aggregate_functions = aggregate_functions := by
  unfold version1.configure at h
  cases hs : version1.select_first_connection_uri args.connection_uris with
  | none => rw [hs] at h; cases h
  | some url =>
    rw [hs] at h
    cases row_result with
    | error e =>
      simp only [Option.some.injEq] at h
      exact absurd h (by simp [Bind.bind, Except.bind])
    | ok p =>
      obtain ⟨tables, aggs⟩ := p
      simp only [Option.some.injEq, Bind.bind, Except.bind,
        Except.ok.injEq] at h
      subst h
      exact ⟨rfl, rfl, rfl, rfl, rfl, tables, aggs, rfl, rfl, rfl⟩

/-- Tables as decoded from a sample introspection row. -/
def sampleTables : metadata.TablesInfo :=
  [("Album",
    { columns :=
        [("AlbumId",
          { name := "AlbumId", type := "int4",
            nullable := metadata.Nullable.NonNullable }),
         ("Title",
          { name := "Title", type := "text",
            nullable := metadata.Nullable.Nullable })]
      uniqueness_constraints := [("PK_Album", ["AlbumId"])]
      foreign_relations := [] })]

/-- Aggregate functions as decoded from a sample introspection row. -/
def sampleAggregateFunctions : metadata.AggregateFunctions :=
  [("int4", [("max", { return_type := "int4" })])]

/-- A minimal raw configuration holding one endpoint and empty metadata. -/
def sampleArgs : version1.RawConfiguration :=
  { version := 1
    connection_uris := version1.single_connection_uri "postgresql://u@h/db"
    pool_settings := version1.PoolSettings.default
    metadata := { tables := [], native_queries := [], aggregate_functions := [] }
    excluded_schemas := version1.default_excluded_schemas }

/-- The configuration configure produces from sampleArgs and the sample
introspection row. -/
def sampleConfigured : version1.RawConfiguration :=
  { version := 1
    connection_uris := sampleArgs.connection_uris
    pool_settings := sampleArgs.pool_settings
    metadata :=
      { tables := sampleTables
        native_queries := []
        aggregate_functions := sampleAggregateFunctions }
    excluded_schemas := sampleArgs.excluded_schemas }

/-- C4 witness: the frame property instantiated on the sample configuration
and sample introspection row. -/
theorem configure_frame_witness :
    sampleConfigured.connection_uris = sampleArgs.connection_uris ∧
    sampleConfigured.pool_settings = sampleArgs.pool_settings ∧
    sampleConfigured.metadata.native_queries =
      sampleArgs.metadata.native_queries ∧
    sampleConfigured.excluded_schemas = sampleArgs.excluded_schemas ∧
    sampleConfigured.version = 1 ∧
    ∃ tables aggregate_functions,
      (Except.ok (sampleTables, sampleAggregateFunctions) :
          Except version1.UpdateConfigurationError
            (metadata.TablesInfo × metadata.AggregateFunctions)) =
        Except.ok (tables, aggregate_functions) ∧
      sampleConfigured.metadata.tables = tables ∧
      sampleConfigured.metadata.aggregate_functions = aggregate_functions :=
  configure_frame sampleArgs
    (Except.ok (sampleTables, sampleAggregateFunctions)) sampleConfigured rfl

/-- C7: the field type emitted for a column is the nullable wrapper around
its named scalar type exactly when the column's discovered nullability is
nullable, and the bare named scalar type exactly when it is non-nullable. -/
theorem column_to_type_nullable_iff (column : metadata.ColumnInfo) :
    (Schema.column_to_type column =
        models.Typ.Nullable (models.Typ.Named column.type) ↔
      column.nullable = metadata.Nullable.Nullable) ∧
    (Schema.column_to_type column = models.Typ.Named column.type ↔
      column.nullable = metadata.Nullable.NonNullable) := by
  cases h : column.nullable <;> simp [Schema.column_to_type, h]

/-- C8: the pool-settings defaults are 50 connections, a 30 second pool
timeout, a 180 second idle timeout and a 600 second connection lifetime, and
the pool_settings field is omitted from the serialized configuration iff its
value equals those defaults. -/
theorem pool_settings_defaults_and_omission :
    version1.PoolSettings.default =
      { max_connections := 50, pool_timeout := 30,
        idle_timeout := some 180, connection_lifetime := some 600 } ∧
    ∀ config : version1.RawConfiguration,
      (version1.serialized_pool_settings config = none ↔
        config.pool_settings = version1.PoolSettings.default) := by
  refine ⟨rfl, fun config => ?_⟩
  by_cases h : config.pool_settings = version1.PoolSettings.default <;>
    simp [version1.serialized_pool_settings, version1.PoolSettings.is_default, h]

/-- C9: deserializing the bare-string shape and the value-wrapper shape of a
connection secret produce the same internal ResolvedSecret holding that
string, so the two accepted input shapes are indistinguishable after
parsing. -/
theorem resolved_secret_shapes_coincide (s : String) :
    version1.ResolvedSecret.fromIntermediate
        (version1.ResolvedSecretIntermediate.Unwrapped s) =
      version1.ResolvedSecret.fromIntermediate
        (version1.ResolvedSecretIntermediate.Wrapped s) ∧
    version1.ResolvedSecret.fromIntermediate
        (version1.ResolvedSecretIntermediate.Unwrapped s) = { value := s } :=
  ⟨rfl, rfl⟩

/-- C10: select_first_connection_uri is partial — on an empty endpoint list
it reaches the panic, modelled as none, rather than returning an error;
select_connection_uri is exactly select_first_connection_uri; and on the
output of the validation gate, whose invariant rules the empty list out, it
returns the string of the first endpoint. -/
theorem select_first_connection_uri_partiality :
    (∀ urls : version1.ConnectionUris,
      urls.uris.is_empty = true →
        version1.select_first_connection_uri urls = none) ∧
    (∀ urls : version1.ConnectionUris,
      version1.select_connection_uri urls =
        version1.select_first_connection_uri urls) ∧
    (∀ (config : version1.RawConfiguration) (c : version1.Configuration),
      version1.validate_raw_configuration config = Except.ok c →
        ∃ u, c.config.connection_uris.uris.first = some u ∧
          version1.select_first_connection_uri c.config.connection_uris =
            some u.secret.value) := by
  refine ⟨fun urls h => ?_, fun urls => rfl, fun config c h => ?_⟩
  · cases hu : urls.uris with
    | Single s => rw [hu] at h; cases h
    | List l =>
      rw [hu] at h
      have : l = [] := List.isEmpty_iff.mp h
      subst this
      simp [version1.select_first_connection_uri, hu,
        version1.SingleOrList.first]
  · unfold version1.validate_raw_configuration at h
    by_cases h1 : config.version ≠ 1
    · rw [if_pos h1] at h; cases h
    · rw [if_neg h1] at h
      by_cases h2 : config.connection_uris.uris.is_empty = true
      · rw [if_pos h2] at h; cases h
      · rw [if_neg h2] at h
        have hc : c = { config := config } := by
          cases h; rfl
        subst hc
        cases hu : config.connection_uris.uris with
        | Single s =>
          exact ⟨s, by simp [hu, version1.SingleOrList.first],
            by simp [version1.select_first_connection_uri, hu,
              version1.SingleOrList.first]⟩
        | List l =>
          cases l with
          | nil => rw [hu] at h2; exact absurd rfl h2
          | cons a t =>
            exact ⟨a, by simp [hu, version1.SingleOrList.first],
              by simp [version1.select_first_connection_uri, hu,
                version1.SingleOrList.first]⟩


/-- C5: the scalar types emitted in the schema response are exactly the union
of table column types, native-query column types, native-query argument types
and the scalar types with a declared aggregate-function entry; each occurring
scalar type is emitted with its aggregate map — the empty map when it has no
aggregate entry — and its comparison-operator map resolved against that left
scalar type. -/
theorem get_schema_scalar_types (cat : Schema.Catalog)
    (config : configuration.RawConfiguration) :
    (BTMap.keys (Schema.get_schema cat { config := config }).scalar_types =
      Schema.occurring_scalar_types config) ∧
    (∀ t : metadata.ScalarType,
      t ∈ Schema.occurring_scalar_types config ↔
        (t ∈ Schema.tables_column_types config ∨
         t ∈ Schema.native_queries_column_types config ∨
         t ∈ Schema.native_queries_arguments_types config ∨
         t ∈ BTMap.keys config.aggregate_functions)) ∧
    (∀ t : metadata.ScalarType, t ∈ Schema.occurring_scalar_types config →
      BTMap.lookup t (Schema.get_schema cat { config := config }).scalar_types =
        some (Schema.scalarTypeEntry cat config.aggregate_functions t)) ∧
    (∀ t : metadata.ScalarType,
      BTMap.lookup t config.aggregate_functions = none →
        (Schema.scalarTypeEntry cat config.aggregate_functions t).aggregate_functions =
          BTMap.empty) ∧
    (∀ t : metadata.ScalarType,
      (Schema.scalarTypeEntry cat config.aggregate_functions t).comparison_operators =
        BTMap.fromList ((cat.comparison_operators t).map
          (fun op =>
            (op,
             { argument_type :=
                 models.Typ.Named (cat.rhs_argument_type op t) })))) := by
  have hsorted : BTSet.Sorted (Schema.occurring_scalar_types config) :=
    BTSet.sorted_fromList _
  have hmapped : BTMap.SortedKeys
      ((Schema.occurring_scalar_types config).map
        (fun scalar_type =>
          (scalar_type,
           Schema.scalarTypeEntry cat config.aggregate_functions scalar_type))) := by
    simp only [BTMap.SortedKeys, List.pairwise_map]
    exact hsorted
  have hscalar : (Schema.get_schema cat { config := config }).scalar_types =
      (Schema.occurring_scalar_types config).map
        (fun scalar_type =>
          (scalar_type,
           Schema.scalarTypeEntry cat config.aggregate_functions scalar_type)) := by
    simp only [Schema.get_schema]
    exact BTMap.fromList_eq_of_sorted hmapped
  refine ⟨?_, ?_, ?_, ?_, fun t => rfl⟩
  · rw [hscalar]
    simp only [BTMap.keys, List.map_map]
    have hcomp : (Prod.fst ∘ fun scalar_type : metadata.ScalarType =>
        (scalar_type,
         Schema.scalarTypeEntry cat config.aggregate_functions scalar_type)) =
        id := rfl
    rw [hcomp, List.map_id]
  · intro t
    simp only [Schema.occurring_scalar_types, BTSet.mem_fromList,
      List.mem_append, Schema.aggregate_types]
    tauto
  · intro t ht
    rw [hscalar]
    exact BTMap.lookup_map_of_sorted _ hsorted ht
  · intro t ht
    simp [Schema.scalarTypeEntry, ht, BTMap.fromList, BTMap.extend, BTMap.empty]

/-- C6: get_schema is a pure, deterministic function of the configuration —
in this embedding two invocations on the same configuration are literally the
same value — and every map it emits is canonically key-ordered: the
scalar-type and object-type maps, every object type's field map, every scalar
type's aggregate and comparison maps, and every collection's argument,
uniqueness-constraint and foreign-key maps all have strictly increasing
keys. -/
theorem get_schema_deterministic_and_ordered (cat : Schema.Catalog)
    (c : configuration.Configuration) :
    Schema.get_schema cat c = Schema.get_schema cat c ∧
    BTMap.SortedKeys (Schema.get_schema cat c).scalar_types ∧
    BTMap.SortedKeys (Schema.get_schema cat c).object_types ∧
    (∀ p ∈ (Schema.get_schema cat c).object_types,
      BTMap.SortedKeys p.2.fields) ∧
    (∀ p ∈ (Schema.get_schema cat c).scalar_types,
      BTMap.SortedKeys p.2.aggregate_functions ∧
      BTMap.SortedKeys p.2.comparison_operators) ∧
    (∀ ci ∈ (Schema.get_schema cat c).collections,
      BTMap.SortedKeys ci.arguments ∧
      BTMap.SortedKeys ci.uniqueness_constraints ∧
      BTMap.SortedKeys ci.foreign_keys) := by
  obtain ⟨config⟩ := c
  refine ⟨rfl, BTMap.sortedKeys_fromList _,
    BTMap.sortedKeys_extend _ (BTMap.sortedKeys_fromList _), ?_, ?_, ?_⟩
  · intro p hp
    simp only [Schema.get_schema] at hp
    rcases BTMap.mem_extend_elim _ hp with h | h
    · have h2 := BTMap.mem_fromList_elim _ h
      rcases List.mem_map.mp h2 with ⟨q, _, hq⟩
      rw [← hq]
      exact BTMap.sortedKeys_fromList _
    · rcases List.mem_map.mp h with ⟨q, _, hq⟩
      rw [← hq]
      exact BTMap.sortedKeys_fromList _
  · intro p hp
    simp only [Schema.get_schema] at hp
    have h2 := BTMap.mem_fromList_elim _ hp
    rcases List.mem_map.mp h2 with ⟨q, _, hq⟩
    rw [← hq]
    exact ⟨BTMap.sortedKeys_fromList _, BTMap.sortedKeys_fromList _⟩
  · intro ci hci
    simp only [Schema.get_schema] at hci
    rcases List.mem_append.mp hci with h | h
    · rcases List.mem_map.mp h with ⟨q, _, hq⟩
      rw [← hq]
      exact ⟨List.Pairwise.nil, BTMap.sortedKeys_fromList _,
        BTMap.sortedKeys_fromList _⟩
    · rcases List.mem_map.mp h with ⟨q, _, hq⟩
      rw [← hq]
      exact ⟨BTMap.sortedKeys_fromList _, List.Pairwise.nil,
        List.Pairwise.nil⟩
